import Mathlib

/-!
Shallow embedding of `snowballer.py` (repository `snowballer`).

The program is a linear pipeline: recursively enumerate files under a root
directory (skipping over-long paths), read per-file modification times and
sizes, keep only files modified inside a trailing time window, and render a
size-weighted histogram with `nmonths` equal-width bins.

Modelling conventions:
* Python floats are idealised as exact rationals (`ℚ`); the float literal
  `30.42` is the rational `3042/100`, `1e-6` is `1/1000000`.
* POSIX timestamps produced by `np.vectorize(os.path.getmtime,
  otypes=[np.int64])` are integers (`ℤ`), file sizes from `os.path.getsize`
  are integers (`ℤ`).
* The filesystem seen by `os.walk` is a finite tree of directories
  (`DirTree`/`DirForest`); a nonexistent root is `Option.none` (with the
  default `onerror=None`, `os.walk` swallows the scandir error and yields
  no triples at all).
* Exceptions are modelled with `Except`: a run that reaches `fig.savefig`
  returns `.ok buckets` (the image is produced), a run that raises earlier
  returns `.error e` (no image is produced).
-/

namespace Snowballer

/-- Conversion factor from seconds to months as the source computes it
(`sec2month = 1.0/(60*60*24*7*30.42)`), in exact rational arithmetic.
The denominator as written in the source contains the factor `7`. -/
def sec2month : ℚ := 1 / (60 * 60 * 24 * 7 * (3042 / 100))

/-- Lower end of the time window (`start = ts - nmonths/sec2month`). -/
def start (ts : ℚ) (nmonths : ℕ) : ℚ := ts - nmonths / sec2month

/-- Upper end of the time window (`end = ts`); `end` is a Lean keyword,
hence the name `endTime`. -/
def endTime (ts : ℚ) : ℚ := ts

/-- Range-filter mask for a single record, from
`ct = (mtimes > start) & (mtimes < end)`. -/
def ct (ts : ℚ) (nmonths : ℕ) (m : ℤ) : Bool :=
  decide (start ts nmonths < (m : ℚ)) && decide ((m : ℚ) < endTime ts)

/-- Bin index of a sample for a one-dimensional equal-width histogram with
`n` bins on the closed range `[lo, hi]`.  This models the binning performed
by `ax.hist(xs, bins=n, range=(lo, hi), weights=ws)` (numpy histogram
semantics): a sample inside the range goes to bin `⌊(x-lo)·n/(hi-lo)⌋`,
except that the right endpoint falls into the last bin; samples outside
`[lo, hi]` are dropped. -/
def binIndex (lo hi : ℚ) (n : ℕ) (x : ℚ) : Option ℕ :=
  if lo ≤ x ∧ x ≤ hi then
    some (min (((x - lo) * n / (hi - lo)).floor.toNat) (n - 1))
  else
    none

/-- Total weight collected by bin `i` of the histogram: the sum of the
weights of the samples whose bin index is `i`. -/
def histWeights (lo hi : ℚ) (n : ℕ) (data : List (ℚ × ℚ)) (i : ℕ) : ℚ :=
  ((data.filter fun p => binIndex lo hi n p.1 == some i).map Prod.snd).sum

/-- Aggregation stage of the pipeline on a list of records
`(modifiedTimestamp, sizeBytes)`: the range filter `ct`, conversion of
sizes to megabytes (`* 1e-6`) and of timestamps to month offsets
(`(mtimes[ct] - ts) * sec2month`), and the size-weighted histogram with
`nmonths` bins on `(start_mo, end_mo)` (source lines 62 to 77). -/
def snowballBuckets (ts : ℚ) (nmonths : ℕ) (records : List (ℤ × ℤ)) :
    ℕ → ℚ :=
  let kept := records.filter fun r => ct ts nmonths r.1
  let sizes_MB := kept.map fun r => (r.2 : ℚ) * (1 / 1000000)
  let mtimes_mo := kept.map fun r => ((r.1 : ℚ) - ts) * sec2month
  let start_mo := (start ts nmonths - ts) * sec2month
  let end_mo := (endTime ts - ts) * sec2month
  histWeights start_mo end_mo nmonths (mtimes_mo.zip sizes_MB)

mutual

/-- Tree of directories as seen by `os.walk`: a directory holds the list of
names of its regular files together with its subdirectories. -/
inductive DirTree where
  | node : List String → DirForest → DirTree

/-- List of named subdirectories of a directory (mutual with `DirTree`). -/
inductive DirForest where
  | nil : DirForest
  | cons : String → DirTree → DirForest → DirForest

end

/-- Model of `os.path.join path name` for a directory path that does not end
in a separator: concatenation with a single separator in between. -/
def pathJoin (path name : String) : String := path ++ "/" ++ name

/-- Inner loop of the enumeration (source lines 41 to 45): for one directory
`path` with file names `files`, append `os.path.join(path, name)` to the
result when `len(path) + len(name) < 256`, otherwise add one to `badnum`. -/
def walkFiles (path : String) (files : List String) : List String × ℕ :=
  files.foldr
    (fun name acc =>
      if path.length + name.length < 256 then
        (pathJoin path name :: acc.1, acc.2)
      else
        (acc.1, acc.2 + 1))
    ([], 0)

mutual

/-- Enumeration of a directory tree (the `for path, subdirs, files in
os.walk(root)` loop, source lines 39 to 45): the retained file paths `fns`
together with the skip counter `badnum`. -/
def walkTree (path : String) : DirTree → List String × ℕ
  | .node files sub =>
      ((walkFiles path files).1 ++ (walkForest path sub).1,
        (walkFiles path files).2 + (walkForest path sub).2)

/-- Enumeration of a forest of named subdirectories of `path`. -/
def walkForest (path : String) : DirForest → List String × ℕ
  | .nil => ([], 0)
  | .cons d t rest =>
      ((walkTree (pathJoin path d) t).1 ++ (walkForest path rest).1,
        (walkTree (pathJoin path d) t).2 + (walkForest path rest).2)

end

mutual

/-- All regular files physically present in the tree rooted at `path`, as
pairs of containing-directory path and file name. -/
def filesTree (path : String) : DirTree → List (String × String)
  | .node files sub => (files.map fun n => (path, n)) ++ filesForest path sub

/-- All regular files present in a forest of named subdirectories. -/
def filesForest (path : String) : DirForest → List (String × String)
  | .nil => []
  | .cons d t rest => filesTree (pathJoin path d) t ++ filesForest path rest

end

/-- Errors a run can raise.  `filesystemError` stands for an OSError escaping
`os.walk`, `fileAccessError` for an OSError from `os.path.getmtime` or
`os.path.getsize` on a single file, `valueError` for the ValueError that
`np.vectorize` without `otypes` raises on size-0 input. -/
inductive PyError where
  | filesystemError
  | fileAccessError
  | valueError
  deriving DecidableEq

/-- File paths produced by the enumeration.  With the default
`onerror=None`, `os.walk` on a nonexistent (or unreadable) root swallows the
scandir error and yields no triples, so a missing root (`none`) gives the
empty list rather than an error. -/
def enumFns (root : String) (fs : Option DirTree) : List String :=
  match fs with
  | none => []
  | some t => (walkTree root t).1

/-- Whole pipeline on an abstract filesystem.  `mtimeOf` and `sizeOf` give
the metadata of a path at the moment it is read; `none` models the file
having vanished (OSError).  `np.vectorize(os.path.getmtime,
otypes=[np.int64])` maps over `fns` and propagates any OSError;
`np.vectorize(os.path.getsize)` (no `otypes`) raises ValueError when its
input `fns[ct]` is empty, and otherwise propagates any OSError.  A run that
reaches the end returns `.ok` with the histogram bucket totals (the image is
written); any raise aborts the run before `fig.savefig`. -/
def runPipeline (root : String) (fs : Option DirTree)
    (mtimeOf sizeOf : String → Option ℤ) (ts : ℚ) (nmonths : ℕ) :
    Except PyError (ℕ → ℚ) :=
  let fns := enumFns root fs
  match fns.mapM mtimeOf with
  | none => .error .fileAccessError
  | some mtimes =>
    let paired := fns.zip mtimes
    let kept := paired.filter fun p => ct ts nmonths p.2
    if kept.isEmpty then .error .valueError
    else
      match kept.mapM fun p => sizeOf p.1 with
      | none => .error .fileAccessError
      | some sizes =>
        let sizes_MB := sizes.map fun s => (s : ℚ) * (1 / 1000000)
        let mtimes_mo := kept.map fun p => ((p.2 : ℚ) - ts) * sec2month
        let start_mo := (start ts nmonths - ts) * sec2month
        let end_mo := (endTime ts - ts) * sec2month
        .ok (histWeights start_mo end_mo nmonths (mtimes_mo.zip sizes_MB))

/-- File name of 254 characters, used to exercise the path-length filter at
the boundary. -/
def longName : String := String.mk (List.replicate 254 'a')

theorem sec2month_pos : 0 < sec2month := by norm_num [sec2month]

theorem ct_eq_decide (ts : ℚ) (n : ℕ) (m : ℤ) :
    ct ts n m = decide (start ts n < (m : ℚ) ∧ (m : ℚ) < endTime ts) := by
  simp [ct]

theorem binIndex_isSome_of_mem (lo hi : ℚ) (n : ℕ) (hn : 0 < n) (x : ℚ)
    (h1 : lo ≤ x) (h2 : x ≤ hi) :
    ∃ i, binIndex lo hi n x = some i ∧ i < n := by
  refine ⟨_, by rw [binIndex, if_pos ⟨h1, h2⟩], ?_⟩
  exact lt_of_le_of_lt (min_le_right _ _) (Nat.sub_lt hn Nat.one_pos)

theorem sum_histWeights (lo hi : ℚ) (n : ℕ) (data : List (ℚ × ℚ))
    (h : ∀ p ∈ data, ∃ i, binIndex lo hi n p.1 = some i ∧ i < n) :
    ∑ i ∈ Finset.range n, histWeights lo hi n data i
      = (data.map Prod.snd).sum := by
  induction data with
  | nil => simp [histWeights]
  | cons p data ih =>
    obtain ⟨j, hj, hjn⟩ := h p (List.mem_cons_self p data)
    have hrest : ∀ q ∈ data, ∃ i, binIndex lo hi n q.1 = some i ∧ i < n :=
      fun q hq => h q (List.mem_cons_of_mem p hq)
    have hsplit : ∀ i, histWeights lo hi n (p :: data) i =
        (if i = j then p.2 else 0) + histWeights lo hi n data i := by
      intro i
      by_cases hij : i = j
      · subst hij
        simp [histWeights, List.filter_cons, hj]
      · have hne : (binIndex lo hi n p.1 == some i) = false := by
          rw [hj]
          simpa using fun hc => hij hc.symm
        simp [histWeights, List.filter_cons, hne, hij]
    calc ∑ i ∈ Finset.range n, histWeights lo hi n (p :: data) i
        = ∑ i ∈ Finset.range n,
            ((if i = j then p.2 else 0) + histWeights lo hi n data i) :=
          Finset.sum_congr rfl fun i _ => hsplit i
      _ = (∑ i ∈ Finset.range n, if i = j then p.2 else 0)
            + ∑ i ∈ Finset.range n, histWeights lo hi n data i :=
          Finset.sum_add_distrib
      _ = p.2 + (data.map Prod.snd).sum := by
          rw [Finset.sum_ite_eq' (Finset.range n) j fun _ => p.2,
            if_pos (Finset.mem_range.mpr hjn), ih hrest]
      _ = ((p :: data).map Prod.snd).sum := by simp

/-- C1: the sum of all bucket totals equals the byte total of exactly the
records strictly inside `(start, end)`, scaled by `1e-6`; and the buckets
are unchanged when records outside the open window are removed, so such
records contribute to no bucket. -/
theorem bucket_totals_eq_inwindow_bytes (ts : ℚ) (n : ℕ)
    (records : List (ℤ × ℤ)) (hn : 0 < n) :
    (∑ i ∈ Finset.range n, snowballBuckets ts n records i)
      = ((records.filter fun r =>
            decide (start ts n < (r.1 : ℚ) ∧ (r.1 : ℚ) < endTime ts)).map
          fun r => (r.2 : ℚ)).sum * (1 / 1000000)
    ∧ snowballBuckets ts n records
      = snowballBuckets ts n (records.filter fun r =>
          decide (start ts n < (r.1 : ℚ) ∧ (r.1 : ℚ) < endTime ts)) := by
  have hfun : (fun r : ℤ × ℤ => ct ts n r.1)
      = fun r : ℤ × ℤ =>
          decide (start ts n < (r.1 : ℚ) ∧ (r.1 : ℚ) < endTime ts) :=
    funext fun r => ct_eq_decide ts n r.1
  constructor
  · simp only [snowballBuckets, List.zip_map']
    rw [sum_histWeights]
    · rw [List.map_map]
      have : (Prod.snd ∘ fun r : ℤ × ℤ =>
          (((r.1 : ℚ) - ts) * sec2month, (r.2 : ℚ) * (1 / 1000000)))
          = fun r : ℤ × ℤ => (r.2 : ℚ) * (1 / 1000000) := rfl
      rw [this, List.sum_map_mul_right, hfun]
    · intro p hp
      obtain ⟨r, hr, rfl⟩ := List.mem_map.mp hp
      have hct := (List.mem_filter.mp hr).2
      simp only [ct, Bool.and_eq_true, decide_eq_true_eq] at hct
      apply binIndex_isSome_of_mem _ _ _ hn
      · exact mul_le_mul_of_nonneg_right (by linarith [hct.1])
          (le_of_lt sec2month_pos)
      · have h2 : (r.1 : ℚ) < ts := by simpa [endTime] using hct.2
        exact mul_le_mul_of_nonneg_right (by simp only [endTime]; linarith)
          (le_of_lt sec2month_pos)
  · simp only [snowballBuckets, ← hfun, List.filter_filter, Bool.and_self]

/-- C1 witness: the bucket-total identity instantiated at a concrete record
list with one in-window record. -/
theorem bucket_totals_eq_inwindow_bytes_witness :
    0 < 24
    ∧ ((∑ i ∈ Finset.range 24, snowballBuckets 0 24 [(-5, 10)] i)
        = (([((-5 : ℤ), (10 : ℤ))].filter fun r =>
              decide (start 0 24 < (r.1 : ℚ) ∧ (r.1 : ℚ) < endTime 0)).map
            fun r => (r.2 : ℚ)).sum * (1 / 1000000)
      ∧ snowballBuckets 0 24 [(-5, 10)]
          = snowballBuckets 0 24 ([((-5 : ℤ), (10 : ℤ))].filter fun r =>
              decide (start 0 24 < (r.1 : ℚ) ∧ (r.1 : ℚ) < endTime 0))) :=
  ⟨by norm_num, bucket_totals_eq_inwindow_bytes 0 24 [(-5, 10)] (by norm_num)⟩

/-- C2: the window lower bound the code computes.  With the default
`nmonths = 24`, `start = now - 24·(60·60·24·7·30.42)` seconds; the
month-length constant in the source carries the week factor `7`, so it is
seven times the 30.42-day month `60·60·24·30.42` that the documentation
describes, and `start` differs from `now - 24·(60·60·24·30.42)`. -/
theorem window_start_has_week_factor (ts : ℚ) :
    start ts 24 = ts - 24 * (60 * 60 * 24 * 7 * (3042 / 100))
    ∧ (60 * 60 * 24 * 7 * (3042 / 100) : ℚ)
        = 7 * (60 * 60 * 24 * (3042 / 100))
    ∧ start ts 24 ≠ ts - 24 * (60 * 60 * 24 * (3042 / 100)) := by
  refine ⟨by norm_num [start, sec2month], by norm_num, ?_⟩
  intro h
  have hs : start ts 24 = ts - 441552384 := by
    rw [start]; norm_num [sec2month]
  rw [hs] at h
  have : (441552384 : ℚ) = 63078912 := by linarith
  norm_num at this

/-- C4: the range filter selects a record exactly when its timestamp is
strictly between `start` and `end`; a timestamp equal to either endpoint is
rejected. -/
theorem range_filter_strict (ts : ℚ) (n : ℕ) (m : ℤ) :
    (ct ts n m = true ↔ start ts n < (m : ℚ) ∧ (m : ℚ) < endTime ts)
    ∧ ((m : ℚ) = start ts n → ct ts n m = false)
    ∧ ((m : ℚ) = endTime ts → ct ts n m = false) := by
  refine ⟨by simp [ct], ?_, ?_⟩
  · intro h
    simp [ct, h]
  · intro h
    simp [ct, h, endTime]

/-- C4 witness: at `now = 0` and the default 24 bins, a file stamped exactly
at the window start (`-441552384`) and one stamped exactly at the window end
(`0`) are both rejected. -/
theorem range_filter_strict_witness :
    (((-441552384 : ℤ) : ℚ) = start 0 24 ∧ ct 0 24 (-441552384) = false)
    ∧ (((0 : ℤ) : ℚ) = endTime 0 ∧ ct 0 24 0 = false) := by
  have h1 : ((-441552384 : ℤ) : ℚ) = start 0 24 := by norm_num [start, sec2month]
  have h2 : ((0 : ℤ) : ℚ) = endTime 0 := by norm_num [endTime]
  exact ⟨⟨h1, (range_filter_strict 0 24 (-441552384)).2.1 h1⟩,
         ⟨h2, (range_filter_strict 0 24 0).2.2 h2⟩⟩

/-- C8: the bucket totals are invariant under permutation of the record
list. -/
theorem buckets_order_independent (ts : ℚ) (n : ℕ) (l l' : List (ℤ × ℤ))
    (h : l.Perm l') : snowballBuckets ts n l = snowballBuckets ts n l' := by
  funext i
  simp only [snowballBuckets, List.zip_map']
  exact List.Perm.sum_eq ((((h.filter _).map _).filter _).map _)

/-- C8 witness: swapping two records leaves the buckets unchanged. -/
theorem buckets_order_independent_witness :
    ([((1 : ℤ), (2 : ℤ)), (3, 4)]).Perm [((3 : ℤ), (4 : ℤ)), (1, 2)]
    ∧ snowballBuckets 0 24 [(1, 2), (3, 4)]
        = snowballBuckets 0 24 [(3, 4), (1, 2)] :=
  ⟨List.Perm.swap _ _ _,
   buckets_order_independent 0 24 _ _ (List.Perm.swap _ _ _)⟩

/-- C9: when every record's byte size is non-negative, every bucket total is
non-negative. -/
theorem buckets_nonneg (ts : ℚ) (n : ℕ) (l : List (ℤ × ℤ))
    (h : ∀ r ∈ l, 0 ≤ r.2) (i : ℕ) : 0 ≤ snowballBuckets ts n l i := by
  simp only [snowballBuckets, List.zip_map', histWeights]
  apply List.sum_nonneg
  intro x hx
  simp only [List.mem_map, List.mem_filter] at hx
  obtain ⟨p, ⟨⟨r, hr, rfl⟩, _⟩, rfl⟩ := hx
  have hsize : (0 : ℚ) ≤ (r.2 : ℚ) := by
    exact_mod_cast h r hr.1
  have : (0 : ℚ) ≤ (1 / 1000000 : ℚ) := by norm_num
  exact mul_nonneg hsize this

/-- C9 witness: a single record of non-negative size gives a non-negative
bucket 0. -/
theorem buckets_nonneg_witness :
    (∀ r ∈ [((1 : ℤ), (2 : ℤ))], 0 ≤ r.2)
    ∧ 0 ≤ snowballBuckets 0 24 [(1, 2)] 0 :=
  ⟨by decide, buckets_nonneg 0 24 _ (by decide) 0⟩

theorem pairFilter (path : String) (files : List String)
    (q : String × String → Bool) :
    (files.map fun n => (path, n)).filter q
      = (files.filter fun n => q (path, n)).map fun n => (path, n) := by
  rw [List.filter_map]
  rfl

theorem walkFiles_spec (path : String) (files : List String) :
    walkFiles path files
      = ((files.filter fun n => decide (path.length + n.length < 256)).map
          (pathJoin path),
         (files.filter fun n =>
            decide (256 ≤ path.length + n.length)).length) := by
  induction files with
  | nil => rfl
  | cons n files ih =>
    have hunfold : walkFiles path (n :: files)
        = if path.length + n.length < 256 then
            (pathJoin path n :: (walkFiles path files).1,
              (walkFiles path files).2)
          else ((walkFiles path files).1, (walkFiles path files).2 + 1) := rfl
    rw [hunfold, ih]
    by_cases hn : path.length + n.length < 256
    · simp [List.filter_cons, hn, Nat.not_le.mpr hn]
    · simp [List.filter_cons, hn, Nat.le_of_not_lt hn]

mutual

theorem walkTree_eq_filter (path : String) (t : DirTree) :
    walkTree path t
      = (((filesTree path t).filter fun p =>
            decide (p.1.length + p.2.length < 256)).map
          fun p => pathJoin p.1 p.2,
         ((filesTree path t).filter fun p =>
            decide (256 ≤ p.1.length + p.2.length)).length) := by
  cases t with
  | node files sub =>
    simp only [walkTree, filesTree]
    rw [walkFiles_spec, walkForest_eq_filter path sub, List.filter_append,
      List.map_append, List.filter_append, List.length_append,
      pairFilter, pairFilter, List.map_map, List.length_map]
    simp [Function.comp]

theorem walkForest_eq_filter (path : String) (f : DirForest) :
    walkForest path f
      = (((filesForest path f).filter fun p =>
            decide (p.1.length + p.2.length < 256)).map
          fun p => pathJoin p.1 p.2,
         ((filesForest path f).filter fun p =>
            decide (256 ≤ p.1.length + p.2.length)).length) := by
  cases f with
  | nil => rfl
  | cons d t rest =>
    simp only [walkForest, filesForest]
    rw [walkTree_eq_filter (pathJoin path d) t, walkForest_eq_filter path rest,
      List.filter_append, List.map_append, List.filter_append,
      List.length_append]

end

set_option maxRecDepth 8000 in
/-- C3 counterexample: with root `"r"` and a file name of 254 characters the
combined length `len(path) + len(name)` is exactly 255, yet the enumeration
retains the file and the skip counter stays 0. -/
theorem enumerator_threshold_cex :
    "r".length + longName.length = 255
    ∧ (walkTree "r" (DirTree.node [longName] DirForest.nil)).1
        = [pathJoin "r" longName]
    ∧ (walkTree "r" (DirTree.node [longName] DirForest.nil)).2 = 0 :=
  ⟨rfl, rfl, rfl⟩

/-- C3 amended: the enumeration retains exactly the files with
`len(path) + len(name) < 256` (combined length at most 255) and counts in
`badnum` exactly the files with combined length at least 256. -/
theorem enumerator_threshold (path : String) (t : DirTree) :
    ((walkTree path t).1
      = ((filesTree path t).filter fun p =>
          decide (p.1.length + p.2.length < 256)).map
        fun p => pathJoin p.1 p.2)
    ∧ (walkTree path t).2
      = ((filesTree path t).filter fun p =>
          decide (256 ≤ p.1.length + p.2.length)).length := by
  rw [walkTree_eq_filter]
  exact ⟨rfl, rfl⟩

/-- C5: the number of retained paths plus the skip counter equals the number
of regular files present in the tree. -/
theorem enumeration_count (path : String) (t : DirTree) :
    (walkTree path t).1.length + (walkTree path t).2
      = (filesTree path t).length := by
  rw [walkTree_eq_filter]
  simp only [List.length_map]
  induction filesTree path t with
  | nil => rfl
  | cons p l ih =>
    by_cases hp : p.1.length + p.2.length < 256
    · simp [List.filter_cons, hp, Nat.not_le.mpr hp]
      omega
    · simp [List.filter_cons, hp, Nat.le_of_not_lt hp]
      omega

/-- C6 counterexample: with a nonexistent root the run does not fail at
enumeration with a filesystem error; it aborts at the size-reading step with
the ValueError of `np.vectorize` on size-0 input, a different error. -/
theorem missing_root_cex :
    runPipeline "r" none (fun _ => some 0) (fun _ => some 0) 0 24
      = .error .valueError
    ∧ PyError.valueError ≠ PyError.filesystemError :=
  ⟨rfl, by decide⟩

/-- C6 amended: when the root does not exist, `os.walk` yields nothing, the
run proceeds past enumeration, and aborts at the size-reading step with a
ValueError; no image is produced. -/
theorem missing_root_aborts_at_getsize (root : String)
    (mt sz : String → Option ℤ) (ts : ℚ) (n : ℕ) :
    runPipeline root none mt sz ts n = .error .valueError := rfl

/-- C7: when one of two enumerated files vanishes before the timestamp
read, the vectorized `os.path.getmtime` raises and the whole run aborts with
the file-access error instead of skipping the file and keeping the other. -/
theorem vanished_file_aborts :
    runPipeline "d" (some (DirTree.node ["a", "b"] DirForest.nil))
      (fun s => if s = pathJoin "d" "a" then none else some (-5))
      (fun _ => some 0) 0 24 = .error .fileAccessError
    ∧ PyError.fileAccessError ≠ PyError.valueError :=
  ⟨rfl, by decide⟩

/-- C10: whenever the timestamp reads succeed and no enumerated file passes
the range filter, the run aborts with the ValueError of `np.vectorize` on
size-0 input and never reaches `fig.savefig`. -/
theorem empty_filter_aborts (root : String) (fs : Option DirTree)
    (mt sz : String → Option ℤ) (ts : ℚ) (n : ℕ) (mtimes : List ℤ)
    (hm : (enumFns root fs).mapM mt = some mtimes)
    (hk : ((enumFns root fs).zip mtimes).filter
        (fun p => ct ts n p.2) = []) :
    runPipeline root fs mt sz ts n = .error .valueError
    ∧ ∀ b, runPipeline root fs mt sz ts n ≠ .ok b := by
  have hrun : runPipeline root fs mt sz ts n = .error .valueError := by
    unfold runPipeline
    dsimp only
    rw [hm]
    dsimp only
    rw [hk]
    rfl
  exact ⟨hrun, fun b h => by rw [hrun] at h; exact Except.noConfusion h⟩

/-- C10 witness: an empty root directory gives an empty enumeration, an
empty filtered set, and the ValueError abort. -/
theorem empty_filter_aborts_witness :
    (enumFns "r" (some (DirTree.node [] DirForest.nil))).mapM
        (fun _ => some (0 : ℤ)) = some []
    ∧ ((enumFns "r" (some (DirTree.node [] DirForest.nil))).zip
        ([] : List ℤ)).filter (fun p => ct 0 24 p.2) = []
    ∧ runPipeline "r" (some (DirTree.node [] DirForest.nil))
        (fun _ => some 0) (fun _ => some 0) 0 24 = .error .valueError :=
  ⟨rfl, rfl,
    (empty_filter_aborts "r" (some (DirTree.node [] DirForest.nil))
      (fun _ => some 0) (fun _ => some 0) 0 24 [] rfl rfl).1⟩

end Snowballer
